import Mathlib

/-
Verification of the research-agent core (agent orchestration loop, memory
store, history compression, evaluation tool) as a shallow embedding of the
TypeScript sources `src/agent.ts`, `src/memory.ts` (which also carries
`compress.ts`) and `src/types.ts`.

Modelling conventions:
- JavaScript objects used as string-keyed maps (`store.knownServices`,
  `svc.facts`) are modelled as insertion-ordered association lists with
  upsert assignment (`jsSet`), matching JS property-assignment semantics.
- JavaScript `Array.prototype.slice` with negative indices is modelled by
  `jsSliceLast` / `jsSliceMiddle` for the exact call shapes in the source.
- External effects (the Anthropic engine, network tools, the Gemini
  summarizer, the wall clock) are oracles passed in as functions; the loop
  itself is deterministic given the oracles, mirroring the awaited calls.
- JS strings are modelled as Lean strings; `.slice(0, n)` becomes
  `String.take n` (identical on the ASCII data involved) and string
  lowercasing covers the character ranges the keyword regex can keep
  (ASCII letters, Cyrillic а-я/ё, digits).
-/

namespace ResearchAgent

/-! ## JS primitives -/

/-- Upsert into a JS-object-as-map: assignment `m[k] = v` replaces the value
at an existing key in place (keeping its position) or appends a new entry. -/
def jsSet {α : Type} (m : List (String × α)) (k : String) (v : α) : List (String × α) :=
  if m.any (fun p => p.1 == k) then m.map (fun p => if p.1 == k then (k, v) else p)
  else m ++ [(k, v)]

/-- Property read `m[k]` on a JS object modelled as an association list. -/
def jsGet {α : Type} (m : List (String × α)) (k : String) : Option α :=
  (m.find? (fun p => p.1 == k)).map (fun p => p.2)

/-- JS `l.slice(-k)`: the last `k` elements, the whole array when `k = 0`
(since `-0 === 0`) or when `k` exceeds the length. -/
def jsSliceLast {α : Type} (l : List α) (k : Nat) : List α :=
  if k = 0 then l else l.drop (l.length - k)

/-- JS `l.slice(1, -k)`: elements from index 1 up to (excluding) index
`length - k`, empty when `k = 0` (then the end index is `0`). -/
def jsSliceMiddle {α : Type} (l : List α) (k : Nat) : List α :=
  if k = 0 then [] else (l.drop 1).take (l.length - k - 1)

/-- Lowercasing as used on the inputs of `extractKeywords` and candidate-name
normalisation: ASCII `A-Z` plus the Cyrillic range `А-Я` and `Ё` (the only
non-ASCII letters the keyword character class keeps). -/
def jsLowerChar (c : Char) : Char :=
  if 'A' ≤ c ∧ c ≤ 'Z' then Char.ofNat (c.toNat + 32)
  else if 0x410 ≤ c.toNat ∧ c.toNat ≤ 0x42F then Char.ofNat (c.toNat + 0x20)
  else if c.toNat = 0x401 then Char.ofNat 0x451
  else c

/-- JS `text.toLowerCase()` over the relevant character ranges. -/
def jsToLower (s : String) : String := String.mk (s.toList.map jsLowerChar)

/-! ## Data model (`src/types.ts`) -/

structure HardCriterion where
  field : String
  description : String
deriving DecidableEq

structure SoftCriterion where
  description : String
  weight : Int
deriving DecidableEq

structure ResearchCriteria where
  hard : List HardCriterion
  soft : List SoftCriterion
deriving DecidableEq

/-- The verdict values admitted by the `evaluate` tool schema
(`agent.ts`, enum on the `verdict` field). -/
inductive Verdict where
  | pass
  | fail
  | needs_more_info
deriving DecidableEq

/-- `verdict.toUpperCase()` as used in the evaluation report. -/
def Verdict.upper : Verdict → String
  | .pass => "PASS"
  | .fail => "FAIL"
  | .needs_more_info => "NEEDS_MORE_INFO"

/-- The string stored into a known-service entry (`svc.verdict = candidate.verdict`). -/
def Verdict.str : Verdict → String
  | .pass => "pass"
  | .fail => "fail"
  | .needs_more_info => "needs_more_info"

structure HardResult where
  criterion : String
  passed : Bool
  evidence : String
deriving DecidableEq

structure SoftScore where
  criterion : String
  score : Int
  reasoning : String
deriving DecidableEq

structure CandidateRecord where
  name : String
  url : Option String
  verdict : Verdict
  hardResults : List HardResult
  softScores : List SoftScore
  rejectionReason : Option String
  notes : Option String
deriving DecidableEq

structure ResearchSession where
  id : String
  timestamp : String
  task : String
  criteria : ResearchCriteria
  candidates : List CandidateRecord
  bestMatch : Option String
  searchQueries : List String
  conclusion : String
deriving DecidableEq

structure KnownService where
  url : Option String
  lastChecked : String
  facts : List (String × String)
  verdict : Option String
  notes : List String
deriving DecidableEq

structure MemoryStore where
  sessions : List ResearchSession
  knownServices : List (String × KnownService)
deriving DecidableEq

def emptyStore : MemoryStore := { sessions := [], knownServices := [] }

/-- JS truthiness of an optional string field (`undefined` and `""` are falsy). -/
def truthy : Option String → Bool
  | none => false
  | some s => !(s == "")

/-! ## Memory store (`src/memory.ts`) -/

/-- The stop-word list of `extractKeywords`. -/
def stopWords : List String :=
  ["that", "this", "with", "from", "have", "been", "will", "should", "could",
   "would", "must", "they", "their", "about", "which", "there", "were",
   "what", "when", "find", "need", "search", "look",
   "найти", "нужно", "искать", "поиск", "должен", "может", "также", "через",
   "более", "после", "перед"]

/-- Characters kept by the regex class `[a-zа-яё0-9\s]`; everything else is
replaced by a space before splitting. -/
def keywordChar (c : Char) : Bool :=
  (decide ('a' ≤ c) && decide (c ≤ 'z')) ||
  (decide (0x430 ≤ c.toNat) && decide (c.toNat ≤ 0x44F)) ||
  decide (c.toNat = 0x451) ||
  (decide ('0' ≤ c) && decide (c ≤ '9')) ||
  c.isWhitespace

/-- Split a character list at whitespace, as JS `split(/\s+/)` does up to
empty fragments (which the length filter below discards either way). -/
def wordsAux : List Char → List Char → List (List Char)
  | [], acc => [acc.reverse]
  | c :: cs, acc =>
      if c.isWhitespace then acc.reverse :: wordsAux cs []
      else wordsAux cs (c :: acc)

/-- `extractKeywords` from `memory.ts`: lowercase, strip to the kept character
class, split on whitespace, keep words longer than 3, drop stop words. -/
def extractKeywords (text : String) : List String :=
  ((wordsAux ((jsToLower text).toList.map (fun c => if keywordChar c then c else ' ')) []).map
      (fun w => String.mk w)).filter (fun w => decide (3 < w.length)) |>.filter
    (fun w => !(stopWords.contains w))

/-- The keyword-overlap score of a past session against the task keywords:
`taskWords.filter(w => sessionWords.includes(w)).length` where the session
words come from `session.task + " " + session.conclusion`. -/
def overlapScore (taskWords : List String) (s : ResearchSession) : Nat :=
  (taskWords.filter (fun w => (extractKeywords (s.task ++ " " ++ s.conclusion)).contains w)).length

/-- The JS comparator `(a, b) => b.score - a.score` orders pairs by descending
score; `Array.prototype.sort` is stable, so this is a stable merge sort with
`a` allowed before `b` iff `b.score ≤ a.score`. -/
def scoreLe (a b : ResearchSession × Nat) : Bool := decide (b.2 ≤ a.2)

/-- The session-selection core of `getMemoryContext`: score every stored
session, keep positive scores, sort descending (stably), truncate to
`maxSessions`, and use each survivor's session. -/
def relevantSessions (store : MemoryStore) (task : String) (maxSessions : Nat) :
    List ResearchSession :=
  let taskWords := extractKeywords task
  let scored := store.sessions.map (fun s => (s, overlapScore taskWords s))
  (((scored.filter (fun p => decide (0 < p.2))).mergeSort scoreLe).take maxSessions).map
    (fun p => p.1)

/-- `getMemoryContext(task)` uses the default `maxSessions = 5`. -/
def relevantSessionsDefault (store : MemoryStore) (task : String) : List ResearchSession :=
  relevantSessions store task 5

/-- JS `String.prototype.trim`: strip leading and trailing whitespace. -/
def jsTrim (s : String) : String :=
  String.mk (((s.toList.dropWhile Char.isWhitespace).reverse.dropWhile Char.isWhitespace).reverse)

/-- Candidate-name normalisation used as the known-services key:
`candidate.name.toLowerCase().trim()`. -/
def normalizeName (name : String) : String := jsTrim (jsToLower name)

/-- The fresh entry created when `store.knownServices[key]` is absent. -/
def freshService (timestamp : String) : KnownService :=
  { url := none, lastChecked := timestamp, facts := [], verdict := none, notes := [] }

/-- The per-candidate mutation of a known-service entry inside `saveSession`:
refresh `lastChecked`, merge `url` (JS truthiness guard) and `verdict`,
record hard results and soft scores as facts, append rejection/notes,
cap notes to the most recent 10. -/
def updateService (timestamp : String) (svc : KnownService) (c : CandidateRecord) :
    KnownService :=
  let svc := { svc with lastChecked := timestamp }
  let svc := if truthy c.url then { svc with url := c.url } else svc
  let svc := { svc with verdict := some c.verdict.str }
  let svc := { svc with
    facts := c.hardResults.foldl
      (fun (f : List (String × String)) (hr : HardResult) =>
        jsSet f hr.criterion ((if hr.passed then "YES" else "NO") ++ " — " ++ hr.evidence))
      svc.facts }
  let svc := { svc with
    facts := c.softScores.foldl
      (fun (f : List (String × String)) (sr : SoftScore) =>
        jsSet f ("soft:" ++ sr.criterion) (toString sr.score ++ "/10 — " ++ sr.reasoning))
      svc.facts }
  let svc :=
    if truthy c.rejectionReason then
      { svc with notes := svc.notes ++
          ["Rejected (" ++ timestamp.take 10 ++ "): " ++ c.rejectionReason.getD ""] }
    else svc
  let svc :=
    if truthy c.notes then { svc with notes := svc.notes ++ [c.notes.getD ""] } else svc
  if 10 < svc.notes.length then { svc with notes := svc.notes.drop (svc.notes.length - 10) }
  else svc

/-- `saveSession` from `memory.ts`: push the session, upsert a known-service
entry per candidate (keyed by normalised name), then evict beyond 50 sessions
(`sessions.slice(-50)`). -/
def saveSession (store : MemoryStore) (session : ResearchSession) : MemoryStore :=
  let store := { store with sessions := store.sessions ++ [session] }
  let store := { store with
    knownServices := session.candidates.foldl
      (fun (ks : List (String × KnownService)) (c : CandidateRecord) =>
        let key := normalizeName c.name
        let svc := (jsGet ks key).getD (freshService session.timestamp)
        jsSet ks key (updateService session.timestamp svc c))
      store.knownServices }
  if 50 < store.sessions.length then
    { store with sessions := store.sessions.drop (store.sessions.length - 50) }
  else store

/-! ## Conversation state and history compression (`compress.ts`) -/

inductive Role where
  | user
  | assistant
deriving DecidableEq

/-- The `evaluate` tool input as read by `handleEvaluation`; the `verdict`
field carries the three-value enum declared in the tool schema. Optional
fields absent in the call are `none`. -/
structure EvalInput where
  name : String
  url : Option String
  hard_criteria : List HardResult
  soft_criteria : Option (List SoftScore)
  verdict : Verdict
  rejection_reason : Option String
  notes : Option String
deriving DecidableEq

/-- A requested tool call: dispatch in `executeTool` is by name, with a
default branch throwing `Unknown tool`. -/
inductive ToolRequest where
  | google_search (query : String)
  | discover (query : String) (context : String)
  | extract_page (url : String) (what_to_extract : String)
  | read_page (url : String)
  | evaluate (input : EvalInput)
  | unknown (name : String)
deriving DecidableEq

inductive ContentBlock where
  | text (t : String)
  | tool_use (id : String) (req : ToolRequest)
  | tool_result (tool_use_id : String) (content : String) (is_error : Bool)
deriving DecidableEq

/-- A message's content is either a plain string or a block array. -/
inductive MsgContent where
  | str (s : String)
  | blocks (bs : List ContentBlock)
deriving DecidableEq

structure Message where
  role : Role
  content : MsgContent
deriving DecidableEq

def COMPRESS_EVERY : Nat := 3

def MAX_ITERATIONS : Nat := 10

/-- The synthetic acknowledgement turn inserted by `compressHistory`. -/
def ackMessage : Message :=
  ⟨Role.assistant,
   MsgContent.str "I\x27ll begin researching this. Let me start by reviewing my progress so far."⟩

/-- The summary-as-context turn inserted by `compressHistory`. -/
def summaryMessage (middleCount : Nat) (summary : String) : Message :=
  ⟨Role.user,
   MsgContent.str ("[RESEARCH PROGRESS SUMMARY — compressed from " ++ toString middleCount ++
     " previous exchanges]\n\n" ++ summary ++ "\n\n[END SUMMARY — continuing research from here]")⟩

/-- `compressHistory` from `compress.ts`. The summarization collaborator is an
oracle: `none` models the Gemini call failing (caught, returning the input
unchanged), `some summary` models success. Guards: fewer than 6 messages, or a
middle section of fewer than 4 messages, return the input unchanged. -/
def compressHistory (summaryResult : Option String) (messages : List Message)
    (keepLastExchanges : Nat) : List Message :=
  if messages.length < 6 then messages
  else
    let tailCount := keepLastExchanges * 2
    let tail := jsSliceLast messages tailCount
    let middle := jsSliceMiddle messages tailCount
    if middle.length < 4 then messages
    else
      match summaryResult with
      | none => messages
      | some summary =>
          messages.take 1 ++ [ackMessage, summaryMessage middle.length summary] ++ tail

/-! ## The `evaluate` tool (`agent.ts`, `handleEvaluation`) -/

/-- `"─".repeat(50)`. -/
def sepLine : String := String.mk (List.replicate 50 '─')

/-- The candidate record constructed by `handleEvaluation` and pushed onto the
session accumulator; `soft_criteria` defaults to the empty list. -/
def mkCandidate (input : EvalInput) : CandidateRecord :=
  { name := input.name
    url := input.url
    verdict := input.verdict
    hardResults := input.hard_criteria
    softScores := input.soft_criteria.getD []
    rejectionReason := input.rejection_reason
    notes := input.notes }

/-- Decimal rendering to one fractional digit of `sum / len`, rounding half
away from zero; stands in for JS `Number.prototype.toFixed(1)` on the IEEE
quotient (identical on the values at stake up to double-rounding of exact
ties, which no claim touches). -/
def toFixed1 (sum : Int) (len : Nat) : String :=
  let mag : Nat := (2 * (10 * sum).natAbs + len) / (2 * len)
  (if sum < 0 then "-" else "") ++ toString (mag / 10) ++ "." ++ toString (mag % 10)

def evalReportHeader (name : String) : String :=
  "\n📊 EVALUATION: " ++ name ++ "\n" ++ sepLine ++ "\n"

def evalReportHardLine (passed total : Nat) : String :=
  "Hard criteria: " ++ toString passed ++ "/" ++ toString total ++ " " ++
    (if passed = total then "✅ ALL PASSED" else "❌ FAILED") ++ "\n"

def hardResultLine (r : HardResult) : String :=
  "  " ++ (if r.passed then "✅" else "❌") ++ " " ++ r.criterion ++ "\n     " ++ r.evidence ++ "\n"

def softScoreLine (s : SoftScore) : String :=
  "  " ++ toString s.score ++ "/10 — " ++ s.criterion ++ "\n     " ++ s.reasoning ++ "\n"

/-- Everything the report appends after its `Hard criteria:` line: the
per-criterion lines, the optional soft-score section, and the verdict,
rejection-reason and notes lines. -/
def evalReportRest (input : EvalInput) : String :=
  let softScores := input.soft_criteria.getD []
  String.join (input.hard_criteria.map hardResultLine) ++
  (if 0 < softScores.length then
    "\nSoft criteria: avg " ++
      toFixed1 (softScores.foldl (fun acc s => acc + s.score) 0) softScores.length ++ "/10\n" ++
      String.join (softScores.map softScoreLine)
   else "") ++
  "\nVerdict: " ++ input.verdict.upper ++
  (if truthy input.rejection_reason then " — " ++ input.rejection_reason.getD "" else "") ++
  (if truthy input.notes then "\nNotes: " ++ input.notes.getD "" else "") ++
  "\n"

/-- The report string built by `handleEvaluation`. -/
def evalReport (input : EvalInput) : String :=
  let passed := (input.hard_criteria.filter (fun r => r.passed)).length
  let total := input.hard_criteria.length
  evalReportHeader input.name ++ evalReportHardLine passed total ++ evalReportRest input

/-! ## Tool gateway (`agent.ts`, `executeTool`) -/

/-- Session-scoped accumulators plus the count of network calls made so far
(the index into the network oracle). -/
structure ToolState where
  candidates : List CandidateRecord
  queries : List String
  netCalls : Nat
deriving DecidableEq

/-- `executeTool`: search tools record their query before the network call
(so the query is recorded even if the call then throws); the network-backed
tools draw the next oracle answer (`Except.error` = the collaborator threw);
`evaluate` is pure and appends the candidate; an unknown name throws. -/
def executeTool (net : Nat → Except String String) (req : ToolRequest) (st : ToolState) :
    Except String String × ToolState :=
  match req with
  | .google_search q =>
      let st := { st with queries := st.queries ++ [q] }
      (net st.netCalls, { st with netCalls := st.netCalls + 1 })
  | .discover q _context =>
      let st := { st with queries := st.queries ++ ["[discover] " ++ q] }
      (net st.netCalls, { st with netCalls := st.netCalls + 1 })
  | .extract_page _ _ => (net st.netCalls, { st with netCalls := st.netCalls + 1 })
  | .read_page _ => (net st.netCalls, { st with netCalls := st.netCalls + 1 })
  | .evaluate input =>
      (Except.ok (evalReport input), { st with candidates := st.candidates ++ [mkCandidate input] })
  | .unknown name => (Except.error ("Unknown tool: " ++ name), st)

/-- Cap a tool result at `MAX_RESULT = 4000` characters with a truncation
notice. -/
def trimResult (result : String) : String :=
  if 4000 < result.length then
    result.take 4000 ++ "\n\n[Truncated: " ++ toString result.length ++ " chars total. Key info above.]"
  else result

/-- One requested tool call inside the loop body: success yields a capped
result block, a thrown error yields an error-flagged result block; either way
exactly one `tool_result` is appended. -/
def processToolCall (net : Nat → Except String String)
    (acc : List ContentBlock × ToolState) (blk : String × ToolRequest) :
    List ContentBlock × ToolState :=
  match executeTool net blk.2 acc.2 with
  | (Except.ok result, st) =>
      (acc.1 ++ [ContentBlock.tool_result blk.1 (trimResult result) false], st)
  | (Except.error msg, st) =>
      (acc.1 ++ [ContentBlock.tool_result blk.1 ("Error: " ++ msg) true], st)

/-- The `for (const toolCall of toolBlocks)` loop of `agent.ts`. -/
def processToolCalls (net : Nat → Except String String)
    (blocks : List (String × ToolRequest)) (st : ToolState) :
    List ContentBlock × ToolState :=
  blocks.foldl (processToolCall net) ([], st)

/-! ## Orchestration loop (`agent.ts`, `runResearchAgent`) -/

inductive StopReason where
  | end_turn
  | tool_use
  | other
deriving DecidableEq

structure EngineResponse where
  stop_reason : StopReason
  content : List ContentBlock
  usage_input : Nat
  usage_output : Nat
deriving DecidableEq

/-- One attempt at `claude.messages.create`: a response, or a thrown error
carrying `err?.status`. -/
inductive EngineAttempt where
  | ok (resp : EngineResponse)
  | err (status : Option Int)
deriving DecidableEq

/-- The retry loop around the engine call (`for (attempt = 0; attempt < 5; ...)`).
`att` is the oracle of attempt outcomes for this iteration; `waits` collects
the backoff sleeps (in seconds, `min(15 * (attempt + 1), 60)`) performed so
far. The fuel argument makes the recursion structural; started at 5 it can
never reach 0, because a retry requires `attempt < 4`. -/
def retryGo (att : Nat → EngineAttempt) :
    Nat → Nat → List Nat → Except (Option Int) (EngineResponse × List Nat)
  | 0, _, _ => Except.error none
  | fuel + 1, attempt, waits =>
      match att attempt with
      | .ok r => Except.ok (r, waits)
      | .err s =>
          if s == some 429 && decide (attempt < 4) then
            retryGo att fuel (attempt + 1) (waits ++ [min (15 * (attempt + 1)) 60])
          else Except.error s

def retryEngine (att : Nat → EngineAttempt) : Except (Option Int) (EngineResponse × List Nat) :=
  retryGo att 5 0 []

/-- The external collaborators and ambient inputs of one run: the reasoning
engine (indexed by iteration and attempt), the network-backed tools (indexed
by call count), the summarization collaborator (indexed by compression
event), and the wall clock values used for the session id and timestamp. -/
structure RunCfg where
  engine : Nat → Nat → EngineAttempt
  net : Nat → Except String String
  summarize : Nat → Option String
  now : String
  timestamp : String

structure LoopState where
  messages : List Message
  tool : ToolState
  toolCallCount : Nat
  totalInput : Nat
  totalOutput : Nat
  summCalls : Nat

/-- The returned result summary. The cost fields of the source are a pure
function of the accumulated token counts and the best-effort sheet export has
no effect on loop state; neither is needed by any claim, so they are not
carried here. -/
structure ResearchResult where
  answer : String
  iterations : Nat
  toolCalls : Nat
  candidatesEvaluated : Nat
deriving DecidableEq

def respTexts (content : List ContentBlock) : List String :=
  content.filterMap (fun b => match b with | .text t => some t | _ => none)

def respToolUses (content : List ContentBlock) : List (String × ToolRequest) :=
  content.filterMap (fun b => match b with | .tool_use id req => some (id, req) | _ => none)

/-- The session record assembled on the FINISHED path (`agent.ts` lines
356-367): `bestMatch` is the name of the first candidate whose verdict is
`pass`, and the conclusion is the final text truncated to 500 characters. -/
def finishSession (cfg : RunCfg) (task : String) (criteria : ResearchCriteria)
    (tool : ToolState) (finalText : String) : ResearchSession :=
  { id := "session_" ++ cfg.now
    timestamp := cfg.timestamp
    task := task
    criteria := criteria
    candidates := tool.candidates
    bestMatch := (tool.candidates.find? (fun c => c.verdict == Verdict.pass)).map (fun c => c.name)
    searchQueries := tool.queries
    conclusion := finalText.take 500 }

/-- The session record assembled on the EXHAUSTED path (`agent.ts` lines
437-445): the object literal carries no `bestMatch` property at all. -/
def exhaustSession (cfg : RunCfg) (task : String) (criteria : ResearchCriteria)
    (tool : ToolState) : ResearchSession :=
  { id := "session_" ++ cfg.now
    timestamp := cfg.timestamp
    task := task
    criteria := criteria
    candidates := tool.candidates
    bestMatch := none
    searchQueries := tool.queries
    conclusion := "Reached max iterations (" ++ toString MAX_ITERATIONS ++ "). Evaluated " ++
      toString tool.candidates.length ++ " candidates." }

/-- The compression boundary at the top of each iteration: every
`COMPRESS_EVERY` iterations past the first, replace the conversation with its
compressed form (drawing the next summarizer oracle answer). -/
def compressStep (cfg : RunCfg) (iterations : Nat) (st : LoopState) : LoopState :=
  if 1 < iterations ∧ (iterations - 1) % COMPRESS_EVERY = 0 then
    { st with
      messages := compressHistory (cfg.summarize st.summCalls) st.messages 2
      summCalls := st.summCalls + 1 }
  else st

/-- Accumulate the token usage reported by the engine response. -/
def absorbUsage (resp : EngineResponse) (st : LoopState) : LoopState :=
  { st with
    totalInput := st.totalInput + resp.usage_input
    totalOutput := st.totalOutput + resp.usage_output }

/-- The FINISHED exit (`stop_reason === "end_turn"`): join the text blocks
into the final answer, persist the assembled session, and return the result
summary. -/
def finishOutcome (cfg : RunCfg) (task : String) (criteria : ResearchCriteria)
    (store : MemoryStore) (iterations : Nat) (st : LoopState) (resp : EngineResponse) :
    Except (Option Int) ResearchResult × MemoryStore :=
  let finalText := String.intercalate "\n" (respTexts resp.content)
  (Except.ok
    { answer := finalText
      iterations := iterations
      toolCalls := st.toolCallCount
      candidatesEvaluated := st.tool.candidates.length },
   saveSession store (finishSession cfg task criteria st.tool finalText))

/-- The `tool_use` branch: execute every requested call through the gateway
and append the assistant turn plus the tool-results turn to the conversation. -/
def toolTurn (cfg : RunCfg) (st : LoopState) (resp : EngineResponse) : LoopState :=
  let toolBlocks := respToolUses resp.content
  let pr := processToolCalls cfg.net toolBlocks st.tool
  { st with
    tool := pr.2
    toolCallCount := st.toolCallCount + toolBlocks.length
    messages := st.messages ++
      [⟨Role.assistant, MsgContent.blocks resp.content⟩,
       ⟨Role.user, MsgContent.blocks pr.1⟩] }

/-- The EXHAUSTED exit after the iteration cap: persist the session (no
`bestMatch` property in this object literal) and return the stop summary. -/
def exhaustOutcome (cfg : RunCfg) (task : String) (criteria : ResearchCriteria)
    (store : MemoryStore) (iterations : Nat) (st : LoopState) :
    Except (Option Int) ResearchResult × MemoryStore :=
  (Except.ok
    { answer := "Research stopped after " ++ toString MAX_ITERATIONS ++
        " iterations. Evaluated " ++ toString st.tool.candidates.length ++
        " candidates. Results saved to memory."
      iterations := iterations
      toolCalls := st.toolCallCount
      candidatesEvaluated := st.tool.candidates.length },
   saveSession store (exhaustSession cfg task criteria st.tool))

/-- The `while (iterations < MAX_ITERATIONS)` loop. The first argument is the
remaining allowance `MAX_ITERATIONS - iterations`; at 0 the loop exits into
the exhausted path. Each pass: optional compression boundary, engine call
with retry (an error propagates, leaving the store untouched), then a branch
on the stop reason — `end_turn` finishes and persists, `tool_use` executes
the requested calls and appends the two turns, anything else loops. -/
def runLoop (cfg : RunCfg) (task : String) (criteria : ResearchCriteria) (store : MemoryStore) :
    Nat → Nat → LoopState → Except (Option Int) ResearchResult × MemoryStore
  | 0, iterations, st => exhaustOutcome cfg task criteria store iterations st
  | fuel + 1, iterations0, st0 =>
      let iterations := iterations0 + 1
      let st := compressStep cfg iterations st0
      match retryEngine (cfg.engine iterations) with
      | .error s => (Except.error s, store)
      | .ok (resp, _waits) =>
          let st := absorbUsage resp st
          match resp.stop_reason with
          | .end_turn => finishOutcome cfg task criteria store iterations st resp
          | .tool_use => runLoop cfg task criteria store fuel iterations (toolTurn cfg st resp)
          | .other => runLoop cfg task criteria store fuel iterations st

/-- `runResearchAgent`: reset accumulators, seed the conversation with the
task as the sole turn, and iterate. (The memory context fetched at INIT only
feeds the system prompt, which the engine oracle abstracts.) -/
def runResearchAgent (cfg : RunCfg) (task : String) (criteria : ResearchCriteria)
    (store : MemoryStore) : Except (Option Int) ResearchResult × MemoryStore :=
  runLoop cfg task criteria store MAX_ITERATIONS 0
    { messages := [⟨Role.user, MsgContent.str task⟩]
      tool := { candidates := [], queries := [], netCalls := 0 }
      toolCallCount := 0
      totalInput := 0
      totalOutput := 0
      summCalls := 0 }

/-! ## Shared sample values for concrete witnesses -/

def sampleCriteria : ResearchCriteria :=
  { hard := [{ field := "coverage", description := "covers Argentina" }]
    soft := [{ description := "support quality", weight := 3 }] }

def sampleSession : ResearchSession :=
  { id := "s0", timestamp := "2026-01-01T00:00:00Z", task := "past task"
    criteria := sampleCriteria, candidates := [], bestMatch := none
    searchQueries := [], conclusion := "past conclusion" }

/-! ## Theorems -/

/-- C2 helper: the loop adds at most `fuel` iterations to the running count. -/
lemma runLoop_iter_bound (cfg : RunCfg) (task : String) (criteria : ResearchCriteria)
    (store : MemoryStore) : ∀ (fuel iterations : Nat) (st : LoopState) (r : ResearchResult),
    (runLoop cfg task criteria store fuel iterations st).1 = Except.ok r →
    r.iterations ≤ iterations + fuel := by
  intro fuel
  induction fuel with
  | zero =>
      intro iterations st r h
      simp only [runLoop, exhaustOutcome] at h
      rw [Except.ok.injEq] at h
      subst h
      simp
  | succ n ih =>
      intro iterations st r h
      rw [runLoop] at h
      cases hre : retryEngine (cfg.engine (iterations + 1)) with
      | error s => rw [hre] at h; simp at h
      | ok p =>
          obtain ⟨resp, waits⟩ := p
          rw [hre] at h
          cases hsr : resp.stop_reason with
          | end_turn =>
              simp only [hsr, finishOutcome] at h
              rw [Except.ok.injEq] at h
              subst h
              simp
          | tool_use =>
              simp only [hsr] at h
              have := ih _ _ _ h
              omega
          | other =>
              simp only [hsr] at h
              have := ih _ _ _ h
              omega

/-- C2: for every task and every criteria set with at least one hard and one
soft criterion, the run loop is a total function (structural recursion on the
remaining iteration allowance) and whenever it returns a result rather than
propagating an engine error, the reported iteration count is at most the
configured cap `MAX_ITERATIONS = 10`. -/
theorem run_terminates_within_iteration_cap (cfg : RunCfg) (task : String)
    (criteria : ResearchCriteria) (store : MemoryStore) (r : ResearchResult)
    (hhard : criteria.hard ≠ []) (hsoft : criteria.soft ≠ [])
    (h : (runResearchAgent cfg task criteria store).1 = Except.ok r) :
    r.iterations ≤ MAX_ITERATIONS := by
  have := runLoop_iter_bound cfg task criteria store MAX_ITERATIONS 0 _ r h
  omega

/-- C2 witness: a run whose engine finishes immediately returns after 1
iteration, within the cap. -/
theorem run_terminates_within_iteration_cap_witness :
    ({ answer := "done", iterations := 1, toolCalls := 0,
       candidatesEvaluated := 0 } : ResearchResult).iterations ≤ MAX_ITERATIONS :=
  run_terminates_within_iteration_cap
    { engine := fun _ _ => EngineAttempt.ok
        { stop_reason := StopReason.end_turn, content := [ContentBlock.text "done"]
          usage_input := 0, usage_output := 0 }
      net := fun _ => Except.ok "", summarize := fun _ => none
      now := "0", timestamp := "t" }
    "task" sampleCriteria emptyStore _ (by decide) (by decide) rfl

/-- C5: every candidate record built by the `evaluate` tool carries one of
exactly the three schema verdicts, and so does every candidate stored in any
session found in the memory store after a run. -/
theorem candidate_verdict_three_values :
    (∀ input : EvalInput,
      (mkCandidate input).verdict = Verdict.pass ∨ (mkCandidate input).verdict = Verdict.fail ∨
        (mkCandidate input).verdict = Verdict.needs_more_info) ∧
    (∀ (cfg : RunCfg) (task : String) (criteria : ResearchCriteria) (store : MemoryStore)
        (s : ResearchSession), s ∈ (runResearchAgent cfg task criteria store).2.sessions →
      ∀ c ∈ s.candidates,
        c.verdict = Verdict.pass ∨ c.verdict = Verdict.fail ∨
          c.verdict = Verdict.needs_more_info) := by
  constructor
  · intro input
    cases hv : input.verdict <;> simp [mkCandidate, hv]
  · intro cfg task criteria store s _ c _
    cases hv : c.verdict <;> simp [hv]

/-- C5 witness at a concrete evaluation input and a concrete completed run. -/
theorem candidate_verdict_three_values_witness :
    ((mkCandidate
        { name := "Acme", url := none, hard_criteria := [], soft_criteria := none,
          verdict := Verdict.needs_more_info, rejection_reason := none,
          notes := none }).verdict = Verdict.pass ∨
      (mkCandidate
        { name := "Acme", url := none, hard_criteria := [], soft_criteria := none,
          verdict := Verdict.needs_more_info, rejection_reason := none,
          notes := none }).verdict = Verdict.fail ∨
      (mkCandidate
        { name := "Acme", url := none, hard_criteria := [], soft_criteria := none,
          verdict := Verdict.needs_more_info, rejection_reason := none,
          notes := none }).verdict = Verdict.needs_more_info) ∧
    (∀ c ∈ sampleSession.candidates,
      c.verdict = Verdict.pass ∨ c.verdict = Verdict.fail ∨
        c.verdict = Verdict.needs_more_info) :=
  ⟨candidate_verdict_three_values.1 _,
   candidate_verdict_three_values.2
      { engine := fun _ _ => EngineAttempt.ok
          { stop_reason := StopReason.end_turn, content := [], usage_input := 0,
            usage_output := 0 }
        net := fun _ => Except.ok "", summarize := fun _ => none
        now := "0", timestamp := "t" }
      "task" sampleCriteria { sessions := [sampleSession], knownServices := [] }
      sampleSession (by decide)⟩

/-- C7 helper: the sessions component of `saveSession`. -/
lemma saveSession_sessions (store : MemoryStore) (session : ResearchSession) :
    (saveSession store session).sessions =
      if 50 < store.sessions.length + 1 then
        (store.sessions ++ [session]).drop (store.sessions.length + 1 - 50)
      else store.sessions ++ [session] := by
  simp only [saveSession, List.length_append, List.length_cons, List.length_nil]
  split <;> rfl

/-- C7: saving into a store that already holds 50 sessions keeps exactly 50:
the oldest is dropped and the new session is appended as the most recent. -/
theorem saveSession_preserves_50_bound (store : MemoryStore) (session : ResearchSession)
    (h : store.sessions.length = 50) :
    (saveSession store session).sessions = store.sessions.drop 1 ++ [session] ∧
    (saveSession store session).sessions.length = 50 ∧
    (saveSession store session).sessions.getLast? = some session := by
  have hdrop : (store.sessions ++ [session]).drop 1 = store.sessions.drop 1 ++ [session] := by
    cases hs : store.sessions with
    | nil => rw [hs] at h; simp at h
    | cons a t => simp
  have h1 : store.sessions.length + 1 - 50 = 1 := by omega
  have key : (saveSession store session).sessions = store.sessions.drop 1 ++ [session] := by
    rw [saveSession_sessions, h1, if_pos (by omega)]
    exact hdrop
  refine ⟨key, ?_, ?_⟩
  · rw [key]; simp [h]
  · rw [key]; exact List.getLast?_concat _

/-- C7 witness at a concrete 50-session store. -/
theorem saveSession_preserves_50_bound_witness :
    (saveSession { sessions := List.replicate 50 sampleSession, knownServices := [] }
        sampleSession).sessions =
      (List.replicate 50 sampleSession).drop 1 ++ [sampleSession] ∧
    (saveSession { sessions := List.replicate 50 sampleSession, knownServices := [] }
        sampleSession).sessions.length = 50 ∧
    (saveSession { sessions := List.replicate 50 sampleSession, knownServices := [] }
        sampleSession).sessions.getLast? = some sampleSession :=
  saveSession_preserves_50_bound _ _ (by simp)

/-- C4 helper: whenever the loop propagates an error, the memory store comes
back exactly as it went in — no persistence happened. -/
lemma runLoop_error_store_unchanged (cfg : RunCfg) (task : String)
    (criteria : ResearchCriteria) (store : MemoryStore) :
    ∀ (fuel iterations : Nat) (st : LoopState) (e : Option Int),
    (runLoop cfg task criteria store fuel iterations st).1 = Except.error e →
    (runLoop cfg task criteria store fuel iterations st).2 = store := by
  intro fuel
  induction fuel with
  | zero =>
      intro iterations st e h
      simp [runLoop, exhaustOutcome] at h
  | succ n ih =>
      intro iterations st e h
      rw [runLoop] at h ⊢
      cases hre : retryEngine (cfg.engine (iterations + 1)) with
      | error s => simp [hre]
      | ok p =>
          obtain ⟨resp, waits⟩ := p
          rw [hre] at h
          simp only [hre]
          cases hsr : resp.stop_reason with
          | end_turn => simp only [hsr, finishOutcome] at h; simp at h
          | tool_use =>
              simp only [hsr] at h ⊢
              exact ih _ _ _ h
          | other =>
              simp only [hsr] at h ⊢
              exact ih _ _ _ h

/-- C4 helper: the retry loop only ever consults the attempts it actually
makes (indices `attempt` up to `attempt + fuel - 1`). -/
lemma retryGo_congr (att att2 : Nat → EngineAttempt) :
    ∀ (fuel attempt : Nat) (waits : List Nat),
    (∀ i, attempt ≤ i → i < attempt + fuel → att i = att2 i) →
    retryGo att fuel attempt waits = retryGo att2 fuel attempt waits := by
  intro fuel
  induction fuel with
  | zero => intro attempt waits _; rfl
  | succ n ih =>
      intro attempt waits h
      rw [retryGo, retryGo, ← h attempt (by omega) (by omega)]
      cases att attempt with
      | ok r => rfl
      | err s =>
          dsimp only
          by_cases hc : (s == some 429 && decide (attempt < 4)) = true
          · rw [if_pos hc, if_pos hc]
            exact ih _ _ (fun i hi hi2 => h i (by omega) (by omega))
          · rw [if_neg hc, if_neg hc]

/-- C4: the engine call is retried only on a 429 status — any other failure
propagates immediately (first conjunct); a success after `k ≤ 4` straight
429s returns it, having slept the increasing, 60-capped backoff schedule
`15, 30, 45, 60` truncated to `k` waits (second conjunct); five straight
429s exhaust the retries and propagate the 429 error (third conjunct); the
retry loop makes at most 5 attempts in every case (fourth conjunct); and a
propagated engine error leaves the memory store unchanged — the session is
not persisted (fifth conjunct). -/
theorem engine_retry_only_on_429 (att : Nat → EngineAttempt) :
    (∀ (fuel attempt : Nat) (waits : List Nat) (s : Option Int),
      att attempt = EngineAttempt.err s → s ≠ some 429 →
      retryGo att (fuel + 1) attempt waits = Except.error s) ∧
    (∀ (k : Nat) (r : EngineResponse), k ≤ 4 →
      (∀ i, i < k → att i = EngineAttempt.err (some 429)) →
      att k = EngineAttempt.ok r →
      retryEngine att = Except.ok (r, (List.range k).map (fun i => min (15 * (i + 1)) 60))) ∧
    ((∀ i, i < 5 → att i = EngineAttempt.err (some 429)) →
      retryEngine att = Except.error (some 429)) ∧
    (∀ att2 : Nat → EngineAttempt, (∀ i, i < 5 → att i = att2 i) →
      retryEngine att = retryEngine att2) ∧
    (∀ (cfg : RunCfg) (task : String) (criteria : ResearchCriteria) (store : MemoryStore)
        (e : Option Int),
      (runResearchAgent cfg task criteria store).1 = Except.error e →
      (runResearchAgent cfg task criteria store).2 = store) := by
  refine ⟨?_, ?_, ?_, ?_, ?_⟩
  · intro fuel attempt waits s h hne
    rw [retryGo, h]
    simp [hne]
  · intro k r hk hlt hok
    interval_cases k
    · simp [retryEngine, retryGo, hok]
    · have h0 := hlt 0 (by omega)
      simp [retryEngine, retryGo, h0, hok, List.range_succ]
    · have h0 := hlt 0 (by omega)
      have h1 := hlt 1 (by omega)
      simp [retryEngine, retryGo, h0, h1, hok, List.range_succ]
    · have h0 := hlt 0 (by omega)
      have h1 := hlt 1 (by omega)
      have h2 := hlt 2 (by omega)
      simp [retryEngine, retryGo, h0, h1, h2, hok, List.range_succ]
    · have h0 := hlt 0 (by omega)
      have h1 := hlt 1 (by omega)
      have h2 := hlt 2 (by omega)
      have h3 := hlt 3 (by omega)
      simp [retryEngine, retryGo, h0, h1, h2, h3, hok, List.range_succ]
  · intro h
    have h0 := h 0 (by omega)
    have h1 := h 1 (by omega)
    have h2 := h 2 (by omega)
    have h3 := h 3 (by omega)
    have h4 := h 4 (by omega)
    simp [retryEngine, retryGo, h0, h1, h2, h3, h4]
  · intro att2 h
    exact retryGo_congr att att2 5 0 [] (fun i hi hi2 => h i (by omega))
  · intro cfg task criteria store e h
    exact runLoop_error_store_unchanged cfg task criteria store MAX_ITERATIONS 0 _ e h

def sampleResp : EngineResponse :=
  { stop_reason := StopReason.end_turn, content := [], usage_input := 0, usage_output := 0 }

/-- C4 witness: a non-429 failure propagates unretried, and a success after
two 429s comes back having waited 15 then 30 seconds. -/
theorem engine_retry_only_on_429_witness :
    retryGo (fun _ => EngineAttempt.err (some 500)) 5 0 [] = Except.error (some 500) ∧
    retryEngine (fun i => if i < 2 then EngineAttempt.err (some 429)
      else EngineAttempt.ok sampleResp) = Except.ok (sampleResp, [15, 30]) := by
  constructor
  · exact (engine_retry_only_on_429 _).1 4 0 [] _ rfl (by decide)
  · have h := (engine_retry_only_on_429
        (fun i => if i < 2 then EngineAttempt.err (some 429)
          else EngineAttempt.ok sampleResp)).2.1 2 sampleResp (by omega)
      (fun i hi => by interval_cases i <;> rfl) rfl
    rw [h]
    exact rfl

/-- C6: when both turn-count thresholds are met and summarization succeeds,
`compressHistory` returns exactly the original first turn, one synthetic
acknowledgement turn, one summary-as-context turn, and then the last
`keepLastExchanges * 2` turns of the input, unchanged; the trailing kept
block really has length `keepLastExchanges * 2`. -/
theorem compression_splices_history (msgs : List Message) (k : Nat) (s : String)
    (h6 : 6 ≤ msgs.length) (hmid : 4 ≤ (jsSliceMiddle msgs (k * 2)).length) :
    (∃ m₀ rest, msgs = m₀ :: rest ∧
      compressHistory (some s) msgs k =
        m₀ :: ackMessage :: summaryMessage (jsSliceMiddle msgs (k * 2)).length s ::
          msgs.drop (msgs.length - k * 2)) ∧
    (msgs.drop (msgs.length - k * 2)).length = k * 2 := by
  have hk : k ≠ 0 := by
    rintro rfl
    simp [jsSliceMiddle] at hmid
  have hmidlen : (jsSliceMiddle msgs (k * 2)).length = msgs.length - k * 2 - 1 := by
    rw [jsSliceMiddle, if_neg (by omega)]
    simp
    omega
  have hbig : k * 2 + 5 ≤ msgs.length := by
    rw [hmidlen] at hmid
    omega
  obtain ⟨m₀, rest, rfl⟩ : ∃ m₀ rest, msgs = m₀ :: rest := by
    cases msgs with
    | nil => simp at h6
    | cons a t => exact ⟨a, t, rfl⟩
  constructor
  · refine ⟨m₀, rest, rfl, ?_⟩
    rw [compressHistory, if_neg (by omega), if_neg (by omega)]
    rw [jsSliceLast, if_neg (by omega)]
    rfl
  · rw [List.length_drop]
    omega

/-- C6 witness: a nine-turn conversation with the default two kept exchanges
compresses into the documented shape. -/
theorem compression_splices_history_witness :
    (∃ m₀ rest, List.replicate 9 (⟨Role.user, MsgContent.str "m"⟩ : Message) = m₀ :: rest ∧
      compressHistory (some "sum") (List.replicate 9 ⟨Role.user, MsgContent.str "m"⟩) 2 =
        m₀ :: ackMessage ::
          summaryMessage
            (jsSliceMiddle (List.replicate 9 (⟨Role.user, MsgContent.str "m"⟩ : Message))
              (2 * 2)).length "sum" ::
          (List.replicate 9 (⟨Role.user, MsgContent.str "m"⟩ : Message)).drop
            ((List.replicate 9 (⟨Role.user, MsgContent.str "m"⟩ : Message)).length - 2 * 2)) ∧
    ((List.replicate 9 (⟨Role.user, MsgContent.str "m"⟩ : Message)).drop
        ((List.replicate 9 (⟨Role.user, MsgContent.str "m"⟩ : Message)).length - 2 * 2)).length =
      2 * 2 :=
  compression_splices_history _ 2 "sum" (by decide) (by decide)

/-- A scripted engine for the tool-failure scenario: iteration 1 requests one
`extract_page` call, every later iteration finishes with text `T`. -/
def failThenFinishCfg (net : Nat → Except String String) (i1 u w T now ts : String) : RunCfg :=
  { engine := fun iter _ =>
      if iter = 1 then
        EngineAttempt.ok
          { stop_reason := StopReason.tool_use
            content := [ContentBlock.tool_use i1 (ToolRequest.extract_page u w)]
            usage_input := 0, usage_output := 0 }
      else
        EngineAttempt.ok
          { stop_reason := StopReason.end_turn, content := [ContentBlock.text T]
            usage_input := 0, usage_output := 0 }
    net := net
    summarize := fun _ => none
    now := now, timestamp := ts }

/-- C3 helper: the tool loop appends exactly one result block per requested
call, whatever each call's outcome. -/
lemma processToolCalls_foldl_len (net : Nat → Except String String) :
    ∀ (blocks : List (String × ToolRequest)) (acc : List ContentBlock × ToolState),
    (blocks.foldl (processToolCall net) acc).1.length = acc.1.length + blocks.length := by
  intro blocks
  induction blocks with
  | nil => intro acc; simp
  | cons b bs ih =>
      intro acc
      have hone : (processToolCall net acc b).1.length = acc.1.length + 1 := by
        rw [processToolCall]
        obtain ⟨r, st⟩ := executeTool net b.2 acc.2
        cases r <;> simp
      rw [List.foldl_cons, ih, hone]
      simp only [List.length_cons]
      omega

/-- C3: a failing tool call does not abort the session. First conjunct: every
requested call of an iteration yields a tool-result block, failed or not, so
the iteration's other calls still execute. Second conjunct: with the first
network call failing and the second succeeding, the results turn carries an
error-flagged block for the failed call followed by the normal block of the
succeeding one. Third conjunct: a run whose first iteration makes one failing
extraction call and whose second iteration expresses finish intent completes,
returning the finish text as its answer and persisting the finished session. -/
theorem tool_failure_contained (net : Nat → Except String String) (msg ok2 : String)
    (h0 : net 0 = Except.error msg) (h1 : net 1 = Except.ok ok2) :
    (∀ (blocks : List (String × ToolRequest)) (st : ToolState),
      (processToolCalls net blocks st).1.length = blocks.length) ∧
    (∀ (i1 i2 u w u2 : String) (cs : List CandidateRecord) (qs : List String),
      processToolCalls net
          [(i1, ToolRequest.extract_page u w), (i2, ToolRequest.read_page u2)]
          { candidates := cs, queries := qs, netCalls := 0 } =
        ([ContentBlock.tool_result i1 ("Error: " ++ msg) true,
          ContentBlock.tool_result i2 (trimResult ok2) false],
         { candidates := cs, queries := qs, netCalls := 2 })) ∧
    (∀ (i1 u w T now ts task : String) (criteria : ResearchCriteria) (store : MemoryStore),
      runResearchAgent (failThenFinishCfg net i1 u w T now ts) task criteria store =
        (Except.ok { answer := T, iterations := 2, toolCalls := 1, candidatesEvaluated := 0 },
         saveSession store
           (finishSession (failThenFinishCfg net i1 u w T now ts) task criteria
             { candidates := [], queries := [], netCalls := 1 } T))) := by
  refine ⟨?_, ?_, ?_⟩
  · intro blocks st
    have := processToolCalls_foldl_len net blocks ([], st)
    simpa [processToolCalls] using this
  · intro i1 i2 u w u2 cs qs
    simp [processToolCalls, processToolCall, executeTool, h0, h1]
  · intro i1 u w T now ts task criteria store
    have hmax : MAX_ITERATIONS = 10 := rfl
    rw [runResearchAgent, hmax]
    rw [runLoop]
    simp only [failThenFinishCfg, compressStep, retryEngine, retryGo, absorbUsage,
      respToolUses, respTexts, toolTurn, processToolCalls, processToolCall, executeTool,
      h0, COMPRESS_EVERY]
    norm_num
    rw [runLoop]
    simp only [failThenFinishCfg, compressStep, retryEngine, retryGo, absorbUsage,
      respToolUses, respTexts, finishOutcome, COMPRESS_EVERY]
    norm_num
    simp [finishSession, processToolCall, executeTool, h0,
      show "\n".intercalate [T] = T from rfl]

/-- C3 witness: one failing extraction plus one succeeding read produce one
error-flagged and one normal result block, in order. -/
theorem tool_failure_contained_witness :
    processToolCalls (fun i => if i = 0 then Except.error "boom" else Except.ok "page")
        [("a", ToolRequest.extract_page "u" "w"), ("b", ToolRequest.read_page "v")]
        { candidates := [], queries := [], netCalls := 0 } =
      ([ContentBlock.tool_result "a" ("Error: " ++ "boom") true,
        ContentBlock.tool_result "b" (trimResult "page") false],
       { candidates := [], queries := [], netCalls := 2 }) :=
  (tool_failure_contained _ "boom" "page" rfl rfl).2.1 "a" "b" "u" "w" "v" [] []

/-- C1 helper: a run either propagates an engine error with the store
untouched, or persists exactly one session, assembled by `finishSession`
(FINISHED) or by `exhaustSession` (EXHAUSTED) — the only two `saveSession`
call sites of the loop. -/
lemma runLoop_store_shape (cfg : RunCfg) (task : String) (criteria : ResearchCriteria)
    (store : MemoryStore) : ∀ (fuel iterations : Nat) (st : LoopState),
    (∃ e, runLoop cfg task criteria store fuel iterations st = (Except.error e, store)) ∨
    (∃ (ts : ToolState) (text : String) (r : ResearchResult),
      runLoop cfg task criteria store fuel iterations st =
        (Except.ok r, saveSession store (finishSession cfg task criteria ts text))) ∨
    (∃ (ts : ToolState) (r : ResearchResult),
      runLoop cfg task criteria store fuel iterations st =
        (Except.ok r, saveSession store (exhaustSession cfg task criteria ts))) := by
  intro fuel
  induction fuel with
  | zero =>
      intro iterations st
      right; right
      exact ⟨st.tool, _, rfl⟩
  | succ n ih =>
      intro iterations st
      rw [runLoop]
      cases hre : retryEngine (cfg.engine (iterations + 1)) with
      | error s => left; exact ⟨s, rfl⟩
      | ok p =>
          obtain ⟨resp, waits⟩ := p
          dsimp only
          cases hsr : resp.stop_reason with
          | end_turn =>
              right; left
              exact ⟨(absorbUsage resp (compressStep cfg (iterations + 1) st)).tool, _, _, rfl⟩
          | tool_use =>
              dsimp only
              exact ih _ _
          | other =>
              dsimp only
              exact ih _ _

def c1CexEval : EvalInput :=
  { name := "Acme SMS", url := none, hard_criteria := [], soft_criteria := none,
    verdict := Verdict.pass, rejection_reason := none, notes := none }

/-- An engine that requests one pass-verdict evaluation every iteration and
never finishes, driving the run into forced exhaustion. -/
def c1CexCfg : RunCfg :=
  { engine := fun _ _ => EngineAttempt.ok
      { stop_reason := StopReason.tool_use
        content := [ContentBlock.tool_use "t1" (ToolRequest.evaluate c1CexEval)]
        usage_input := 0, usage_output := 0 }
    net := fun _ => Except.ok ""
    summarize := fun _ => some "S"
    now := "0", timestamp := "2026-01-01T00:00:00Z" }

/-- C1 counterexample: a run that ends EXHAUSTED persists a session whose
candidate list holds ten pass-verdict candidates yet whose `bestMatch` is
absent — the claim's equation fails on the EXHAUSTED path. -/
theorem best_match_absent_on_exhaustion :
    ((runResearchAgent c1CexCfg "task" sampleCriteria emptyStore).2.sessions.map
      (fun s => (s.bestMatch, s.candidates.map (fun c => c.verdict)))) =
    [(none, List.replicate 10 Verdict.pass)] := by decide

/-- C1 amended: on FINISHED the persisted session's `bestMatch` is the name
of the first pass-verdict candidate (absent when none passes); on EXHAUSTED
the persisted session never carries a `bestMatch`, even when a pass-verdict
candidate exists; and every run persists through exactly these two session
shapes (or propagates an error and persists nothing). -/
theorem session_best_match_amended (cfg : RunCfg) (task : String)
    (criteria : ResearchCriteria) :
    (∀ (tool : ToolState) (text : String),
      (finishSession cfg task criteria tool text).bestMatch =
        ((finishSession cfg task criteria tool text).candidates.find?
          (fun c => c.verdict == Verdict.pass)).map (fun c => c.name)) ∧
    (∀ tool : ToolState, (exhaustSession cfg task criteria tool).bestMatch = none) ∧
    (∀ (store : MemoryStore) (fuel iterations : Nat) (st : LoopState),
      (∃ e, runLoop cfg task criteria store fuel iterations st = (Except.error e, store)) ∨
      (∃ (ts : ToolState) (text : String) (r : ResearchResult),
        runLoop cfg task criteria store fuel iterations st =
          (Except.ok r, saveSession store (finishSession cfg task criteria ts text))) ∨
      (∃ (ts : ToolState) (r : ResearchResult),
        runLoop cfg task criteria store fuel iterations st =
          (Except.ok r, saveSession store (exhaustSession cfg task criteria ts)))) :=
  ⟨fun _ _ => rfl, fun _ => rfl, fun store fuel iterations st =>
    runLoop_store_shape cfg task criteria store fuel iterations st⟩

section JsMapLemmas

variable {α : Type}

/-- The keys of a JS map after an upsert: unchanged when the key was present,
otherwise the key is appended. -/
lemma jsSet_keys (m : List (String × α)) (k : String) (v : α) :
    (jsSet m k v).map Prod.fst =
      if m.any (fun p => p.1 == k) then m.map Prod.fst else m.map Prod.fst ++ [k] := by
  rw [jsSet]
  split
  · rw [List.map_map]
    apply List.map_congr_left
    intro p _
    simp only [Function.comp]
    by_cases hpk : (p.1 == k) = true
    · rw [if_pos hpk]
      exact (beq_iff_eq.mp hpk).symm ▸ rfl
    · rw [if_neg hpk]
  · simp

lemma jsSet_keys_mem (m : List (String × α)) (k : String) (v : α) :
    k ∈ (jsSet m k v).map Prod.fst := by
  rw [jsSet_keys]
  split
  · rename_i hany
    rw [List.any_eq_true] at hany
    obtain ⟨p, hp, hpk⟩ := hany
    exact (beq_iff_eq.mp hpk) ▸ List.mem_map_of_mem Prod.fst hp
  · simp

lemma jsSet_keys_mono (m : List (String × α)) (k : String) (v : α) (x : String)
    (h : x ∈ m.map Prod.fst) : x ∈ (jsSet m k v).map Prod.fst := by
  rw [jsSet_keys]
  split
  · exact h
  · exact List.mem_append_left _ h

lemma jsSet_keys_nodup (m : List (String × α)) (k : String) (v : α)
    (h : (m.map Prod.fst).Nodup) : ((jsSet m k v).map Prod.fst).Nodup := by
  rw [jsSet_keys]
  split
  · exact h
  · rename_i hany
    rw [Bool.not_eq_true, List.any_eq_false] at hany
    have hk : k ∉ m.map Prod.fst := by
      intro hmem
      rw [List.mem_map] at hmem
      obtain ⟨p, hp, hpk⟩ := hmem
      exact hany p hp (by rw [hpk]; exact beq_iff_eq.mpr rfl)
    simp [List.nodup_append, h, hk]

/-- Reading back the key just written returns the written value. -/
lemma jsGet_jsSet_self (m : List (String × α)) (k : String) (v : α) :
    jsGet (jsSet m k v) k = some v := by
  rw [jsSet, jsGet]
  split
  · rename_i hany
    rw [List.any_eq_true] at hany
    rw [List.find?_map]
    have hcongr : ((fun p : String × α => p.1 == k) ∘
        (fun p : String × α => if p.1 == k then (k, v) else p)) =
        (fun p : String × α => p.1 == k) := by
      funext p
      simp only [Function.comp]
      by_cases hpk : (p.1 == k) = true
      · rw [if_pos hpk, hpk]
        exact beq_iff_eq.mpr rfl
      · rw [if_neg hpk]
    rw [hcongr]
    obtain ⟨p, hp, hpk⟩ := hany
    cases hf : List.find? (fun p : String × α => p.1 == k) m with
    | none =>
        rw [List.find?_eq_none] at hf
        exact absurd hpk (hf p hp)
    | some q =>
        have hq := List.find?_some hf
        simp only [Option.map_some']
        rw [if_pos hq]
  · rw [List.find?_append]
    rename_i hany
    rw [Bool.not_eq_true, List.any_eq_false] at hany
    have hnone : List.find? (fun p : String × α => p.1 == k) m = none := by
      rw [List.find?_eq_none]
      intro p hp
      exact hany p hp
    rw [hnone]
    simp [List.find?_cons]

end JsMapLemmas

section FoldLemmas

variable {β γ : Type}

lemma foldl_jsSet_nodup (key : β → String) (val : List (String × γ) → β → γ) :
    ∀ (l : List β) (m : List (String × γ)), (m.map Prod.fst).Nodup →
    ((l.foldl (fun acc b => jsSet acc (key b) (val acc b)) m).map Prod.fst).Nodup := by
  intro l
  induction l with
  | nil => intro m h; exact h
  | cons b bs ih =>
      intro m h
      rw [List.foldl_cons]
      exact ih _ (jsSet_keys_nodup _ _ _ h)

lemma foldl_jsSet_mem (key : β → String) (val : List (String × γ) → β → γ) :
    ∀ (l : List β) (m : List (String × γ)) (x : String), x ∈ m.map Prod.fst →
    x ∈ (l.foldl (fun acc b => jsSet acc (key b) (val acc b)) m).map Prod.fst := by
  intro l
  induction l with
  | nil => intro m x h; exact h
  | cons b bs ih =>
      intro m x h
      rw [List.foldl_cons]
      exact ih _ _ (jsSet_keys_mono _ _ _ _ h)

lemma foldl_jsSet_mem_of_elem (key : β → String) (val : List (String × γ) → β → γ) :
    ∀ (l : List β) (m : List (String × γ)) (b : β), b ∈ l →
    key b ∈ (l.foldl (fun acc b => jsSet acc (key b) (val acc b)) m).map Prod.fst := by
  intro l
  induction l with
  | nil => intro m b h; simp at h
  | cons a bs ih =>
      intro m b h
      rw [List.foldl_cons]
      rcases List.mem_cons.mp h with h | h
      · subst h
        exact foldl_jsSet_mem key val bs _ _ (jsSet_keys_mem _ _ _)
      · exact ih _ _ h

end FoldLemmas

/-- The hard-criterion fact write of `saveSession`. -/
def hardFactStep (f : List (String × String)) (hr : HardResult) : List (String × String) :=
  jsSet f hr.criterion ((if hr.passed then "YES" else "NO") ++ " — " ++ hr.evidence)

/-- The soft-score fact write of `saveSession`. -/
def softFactStep (f : List (String × String)) (sr : SoftScore) : List (String × String) :=
  jsSet f ("soft:" ++ sr.criterion) (toString sr.score ++ "/10 — " ++ sr.reasoning)

/-- The facts component of a candidate's known-service update is exactly the
hard-result writes followed by the soft-score writes. -/
lemma updateService_facts (ts : String) (svc : KnownService) (c : CandidateRecord) :
    (updateService ts svc c).facts =
      c.softScores.foldl softFactStep (c.hardResults.foldl hardFactStep svc.facts) := by
  simp only [updateService, hardFactStep, softFactStep]
  split <;> split <;> split <;> split <;> rfl

lemma updateService_facts_nodup (ts : String) (svc : KnownService) (c : CandidateRecord)
    (h : (svc.facts.map Prod.fst).Nodup) :
    (((updateService ts svc c).facts).map Prod.fst).Nodup := by
  rw [updateService_facts]
  exact foldl_jsSet_nodup (fun sr => "soft:" ++ sr.criterion) (fun _ sr => _) c.softScores _
    (foldl_jsSet_nodup (fun hr => hr.criterion) (fun _ hr => _) c.hardResults _ h)

lemma updateService_fact_mem_mono (ts : String) (svc : KnownService) (c : CandidateRecord)
    (x : String) (h : x ∈ svc.facts.map Prod.fst) :
    x ∈ ((updateService ts svc c).facts).map Prod.fst := by
  rw [updateService_facts]
  exact foldl_jsSet_mem _ _ c.softScores _ _
    (foldl_jsSet_mem _ _ c.hardResults _ _ h)

lemma updateService_fact_mem_hard (ts : String) (svc : KnownService) (c : CandidateRecord)
    (hr : HardResult) (h : hr ∈ c.hardResults) :
    hr.criterion ∈ ((updateService ts svc c).facts).map Prod.fst := by
  rw [updateService_facts]
  exact foldl_jsSet_mem _ _ c.softScores _ _
    (foldl_jsSet_mem_of_elem (fun hr => hr.criterion) _ c.hardResults _ hr h)

lemma saveSession_knownServices (store : MemoryStore) (session : ResearchSession) :
    (saveSession store session).knownServices =
      session.candidates.foldl
        (fun (ks : List (String × KnownService)) (c : CandidateRecord) =>
          jsSet ks (normalizeName c.name)
            (updateService session.timestamp
              ((jsGet ks (normalizeName c.name)).getD (freshService session.timestamp)) c))
        store.knownServices := by
  simp only [saveSession]
  split <;> rfl

/-- C9: within one `saveSession` call, two candidates whose normalised names
agree upsert one and the same known-service entry (its key occurs exactly
once), and recording a result for the same criterion twice leaves exactly one
fact entry per criterion in that entry's fact map — for the second
candidate's criteria and for the first's alike. The `Nodup` hypotheses are
the JS-object invariant (object keys are unique) on the incoming store. -/
theorem known_service_upsert_idempotent (store : MemoryStore) (session : ResearchSession)
    (c₁ c₂ : CandidateRecord)
    (hc : session.candidates = [c₁, c₂])
    (hname : normalizeName c₂.name = normalizeName c₁.name)
    (hkeys : (store.knownServices.map Prod.fst).Nodup)
    (hfacts : ∀ p ∈ store.knownServices, (p.2.facts.map Prod.fst).Nodup) :
    ((saveSession store session).knownServices.map Prod.fst).count (normalizeName c₁.name) = 1 ∧
    ∀ svc, jsGet (saveSession store session).knownServices (normalizeName c₁.name) = some svc →
      (svc.facts.map Prod.fst).Nodup ∧
      (∀ hr ∈ c₁.hardResults, (svc.facts.map Prod.fst).count hr.criterion = 1) ∧
      (∀ hr ∈ c₂.hardResults, (svc.facts.map Prod.fst).count hr.criterion = 1) := by
  have hks := saveSession_knownServices store session
  rw [hc] at hks
  simp only [List.foldl_cons, List.foldl_nil] at hks
  rw [hname] at hks
  set key := normalizeName c₁.name with hkey
  set svc₀ := (jsGet store.knownServices key).getD (freshService session.timestamp) with hsvc₀
  set svc₁ := updateService session.timestamp svc₀ c₁ with hsvc₁
  set ks₁ := jsSet store.knownServices key svc₁ with hks₁
  have hget₁ : jsGet ks₁ key = some svc₁ := jsGet_jsSet_self _ _ _
  have hks' : (saveSession store session).knownServices =
      jsSet ks₁ key (updateService session.timestamp svc₁ c₂) := by
    rw [hks, hget₁]
    rfl
  set svc₂ := updateService session.timestamp svc₁ c₂ with hsvc₂
  have hnodup₂ : (((jsSet ks₁ key svc₂).map Prod.fst)).Nodup :=
    jsSet_keys_nodup _ _ _ (jsSet_keys_nodup _ _ _ hkeys)
  have hmem₂ : key ∈ (jsSet ks₁ key svc₂).map Prod.fst := jsSet_keys_mem _ _ _
  have hsvc₀nodup : (svc₀.facts.map Prod.fst).Nodup := by
    rw [hsvc₀]
    cases hget : jsGet store.knownServices key with
    | none => simp [freshService]
    | some svc =>
        rw [jsGet] at hget
        cases hf : store.knownServices.find? (fun p => p.1 == key) with
        | none => rw [hf] at hget; simp at hget
        | some p =>
            rw [hf] at hget
            simp only [Option.map_some'] at hget
            have hp := List.mem_of_find?_eq_some hf
            simp only [Option.getD_some]
            rw [← Option.some.injEq] at hget
            simp at hget
            rw [← hget]
            exact hfacts p hp
  have hsvc₂nodup : (svc₂.facts.map Prod.fst).Nodup :=
    updateService_facts_nodup _ _ _ (updateService_facts_nodup _ _ _ hsvc₀nodup)
  constructor
  · rw [hks']
    exact List.count_eq_one_of_mem hnodup₂ hmem₂
  · intro svc hsvc
    rw [hks', jsGet_jsSet_self] at hsvc
    rw [Option.some.injEq] at hsvc
    subst hsvc
    refine ⟨hsvc₂nodup, ?_, ?_⟩
    · intro hr hhr
      have hmem : hr.criterion ∈ (svc₂.facts.map Prod.fst) := by
        rw [hsvc₂]
        exact updateService_fact_mem_mono _ _ _ _
          (updateService_fact_mem_hard _ _ _ hr hhr)
      exact List.count_eq_one_of_mem hsvc₂nodup hmem
    · intro hr hhr
      have hmem : hr.criterion ∈ (svc₂.facts.map Prod.fst) := by
        rw [hsvc₂]
        exact updateService_fact_mem_hard _ _ _ hr hhr
      exact List.count_eq_one_of_mem hsvc₂nodup hmem

def c9CandA : CandidateRecord :=
  { name := "Acme", url := none, verdict := Verdict.pass,
    hardResults := [⟨"price", true, "cheap"⟩], softScores := [],
    rejectionReason := none, notes := none }

def c9CandB : CandidateRecord :=
  { name := "ACME ", url := none, verdict := Verdict.fail,
    hardResults := [⟨"price", false, "expensive"⟩], softScores := [],
    rejectionReason := none, notes := none }

def c9Session : ResearchSession :=
  { id := "s9", timestamp := "2026-02-02T00:00:00Z", task := "t", criteria := sampleCriteria,
    candidates := [c9CandA, c9CandB], bestMatch := none, searchQueries := [],
    conclusion := "c" }

/-- C9 witness: `"Acme"` and `"ACME "` normalise to the same key; saving a
session evaluating both leaves one entry with one fact per criterion. -/
theorem known_service_upsert_idempotent_witness :
    ((saveSession emptyStore c9Session).knownServices.map Prod.fst).count
        (normalizeName c9CandA.name) = 1 ∧
    ∀ svc, jsGet (saveSession emptyStore c9Session).knownServices
        (normalizeName c9CandA.name) = some svc →
      (svc.facts.map Prod.fst).Nodup ∧
      (∀ hr ∈ c9CandA.hardResults, (svc.facts.map Prod.fst).count hr.criterion = 1) ∧
      (∀ hr ∈ c9CandB.hardResults, (svc.facts.map Prod.fst).count hr.criterion = 1) :=
  known_service_upsert_idempotent emptyStore c9Session c9CandA c9CandB rfl (by decide)
    (by simp [emptyStore]) (by simp [emptyStore])

/-- C8: the session-selection core of `getMemoryContext` picks exactly the
stored sessions whose keyword overlap with the task (scored against the
session's task-plus-conclusion text) is positive: at most `maxSessions` of
them, all from the store with positive score, in descending score order, all
positive scorers included whenever they fit the budget, ties kept in the
store's original order (the filtered selection at any score level is a
sublist of the equally-scored sessions in store order), and the default
budget is 5. -/
theorem memory_context_selection (store : MemoryStore) (task : String) (maxSessions : Nat) :
    (relevantSessions store task maxSessions).length ≤ maxSessions ∧
    (∀ s ∈ relevantSessions store task maxSessions, s ∈ store.sessions) ∧
    (∀ s ∈ relevantSessions store task maxSessions,
      0 < overlapScore (extractKeywords task) s) ∧
    (relevantSessions store task maxSessions).Pairwise
      (fun a b => overlapScore (extractKeywords task) b ≤ overlapScore (extractKeywords task) a) ∧
    ((store.sessions.filter
        (fun s => decide (0 < overlapScore (extractKeywords task) s))).length ≤ maxSessions →
      ∀ s ∈ store.sessions, 0 < overlapScore (extractKeywords task) s →
        s ∈ relevantSessions store task maxSessions) ∧
    (∀ v : Nat, 0 < v →
      List.Sublist
        ((relevantSessions store task maxSessions).filter
          (fun s => overlapScore (extractKeywords task) s == v))
        (store.sessions.filter (fun s => overlapScore (extractKeywords task) s == v))) ∧
    relevantSessionsDefault store task = relevantSessions store task 5 := by
  set tw := extractKeywords task with htw
  set g : ResearchSession → ResearchSession × Nat := fun s => (s, overlapScore tw s) with hg
  set P : ResearchSession × Nat → Bool := fun p => decide (0 < p.2) with hP
  set L := store.sessions.map g with hL
  set Lp := L.filter P with hLp
  set M := Lp.mergeSort scoreLe with hM
  have hsel : relevantSessions store task maxSessions = (M.take maxSessions).map Prod.fst := rfl
  have htrans : ∀ (a b c : ResearchSession × Nat),
      scoreLe a b → scoreLe b c → scoreLe a c := by
    intro a b c hab hbc
    simp only [scoreLe, decide_eq_true_eq] at hab hbc ⊢
    omega
  have htotal : ∀ (a b : ResearchSession × Nat), scoreLe a b || scoreLe b a := by
    intro a b
    simp only [scoreLe]
    rcases Nat.le_total b.2 a.2 with h | h <;> simp [h]
  have hsnd : ∀ p ∈ L, p.2 = overlapScore tw p.1 := by
    intro p hp
    rw [hL, List.mem_map] at hp
    obtain ⟨s, _, rfl⟩ := hp
    rfl
  have hmemM : ∀ p ∈ M, p ∈ L ∧ P p = true := by
    intro p hp
    rw [hM, List.mem_mergeSort, hLp, List.mem_filter] at hp
    exact hp
  have hmemTake : ∀ p ∈ M.take maxSessions, p ∈ L ∧ P p = true := by
    intro p hp
    exact hmemM p (List.mem_of_mem_take hp)
  refine ⟨?_, ?_, ?_, ?_, ?_, ?_, rfl⟩
  · rw [hsel]
    simp only [List.length_map, List.length_take]
    omega
  · intro s hs
    rw [hsel, List.mem_map] at hs
    obtain ⟨p, hpt, rfl⟩ := hs
    obtain ⟨hpL, _⟩ := hmemTake p hpt
    rw [hL, List.mem_map] at hpL
    obtain ⟨s₀, hs₀, rfl⟩ := hpL
    exact hs₀
  · intro s hs
    rw [hsel, List.mem_map] at hs
    obtain ⟨p, hpt, rfl⟩ := hs
    obtain ⟨hpL, hPp⟩ := hmemTake p hpt
    have := hsnd p hpL
    rw [hP] at hPp
    simp only [decide_eq_true_eq] at hPp
    omega
  · rw [hsel, List.pairwise_map]
    have hsorted : M.Pairwise (fun a b => scoreLe a b = true) :=
      List.sorted_mergeSort htrans htotal Lp
    have htakep : (M.take maxSessions).Pairwise (fun a b => scoreLe a b = true) :=
      List.Pairwise.sublist (List.take_sublist _ _) hsorted
    refine List.Pairwise.imp_of_mem ?_ htakep
    intro a b ha hb hab
    rw [scoreLe, decide_eq_true_eq] at hab
    rw [← hsnd a (hmemTake a ha).1, ← hsnd b (hmemTake b hb).1]
    exact hab
  · intro hlen s hs hpos
    have hLpeq : Lp = (store.sessions.filter
        (fun s => decide (0 < overlapScore tw s))).map g := by
      rw [hLp, hL, List.filter_map]
      rfl
    have hMlen : M.length ≤ maxSessions := by
      rw [hM, List.length_mergeSort, hLpeq, List.length_map]
      exact hlen
    have htake : M.take maxSessions = M := List.take_of_length_le hMlen
    have hgs : g s ∈ Lp := by
      rw [hLp, List.mem_filter]
      refine ⟨List.mem_map_of_mem g hs, ?_⟩
      rw [hP]
      simpa using hpos
    rw [hsel, htake, List.mem_map]
    exact ⟨g s, List.mem_mergeSort.mpr hgs, rfl⟩
  · intro v hv
    set q : ResearchSession × Nat → Bool := fun p => p.2 == v with hq
    set q' : ResearchSession → Bool := fun s => overlapScore tw s == v with hq'
    set c := Lp.filter q with hc
    have hcq : ∀ p ∈ c, q p = true := by
      intro p hp
      rw [hc, List.mem_filter] at hp
      exact hp.2
    have hcP : c.Pairwise (fun a b => scoreLe a b = true) := by
      apply List.pairwise_of_forall_mem_list
      intro a ha b hb
      have hav := hcq a ha
      have hbv := hcq b hb
      rw [hq, beq_iff_eq] at hav hbv
      rw [scoreLe, decide_eq_true_eq, hav, hbv]
    have hcM : List.Sublist c M := by
      rw [hM]
      exact List.sublist_mergeSort htrans htotal hcP (hc ▸ List.filter_sublist Lp)
    have hperm : List.Perm (M.filter q) c := by
      rw [hc, hM]
      exact (List.mergeSort_perm Lp scoreLe).filter q
    have hsub : List.Sublist c (M.filter q) := by
      have h1 : List.Sublist (c.filter q) (M.filter q) := hcM.filter q
      rwa [List.filter_eq_self.mpr hcq] at h1
    have heq : M.filter q = c := (hsub.eq_of_length hperm.length_eq.symm).symm
    have htake' : List.Sublist ((M.take maxSessions).filter q) (M.filter q) :=
      (List.take_sublist _ _).filter q
    have hLHS : (relevantSessions store task maxSessions).filter q' =
        ((M.take maxSessions).filter q).map Prod.fst := by
      rw [hsel, List.filter_map]
      congr 1
      apply List.filter_congr
      intro p hp
      have := hsnd p (hmemTake p hp).1
      simp only [Function.comp, hq', hq]
      rw [this]
    have hcmap : c.map Prod.fst = store.sessions.filter q' := by
      have h1 : c = L.filter q := by
        rw [hc, hLp, List.filter_filter]
        apply List.filter_congr
        intro p hp
        cases hqp : q p with
        | true =>
            have : P p = true := by
              rw [hq, beq_iff_eq] at hqp
              rw [hP]
              simp only [decide_eq_true_eq]
              omega
            rw [this]
            simp
        | false => simp
      rw [h1, hL, List.filter_map, List.map_map]
      have : (Prod.fst ∘ g) = id := by
        funext s
        rfl
      rw [this, List.map_id]
      rfl
    have hstep : List.Sublist (((M.take maxSessions).filter q).map Prod.fst)
        ((M.filter q).map Prod.fst) := htake'.map Prod.fst
    rw [heq, hcmap] at hstep
    rw [hLHS]
    exact hstep

/-- C8 witness: the selection from a one-session store at the default budget
of 5, applied at score level 1. -/
theorem memory_context_selection_witness :
    (relevantSessions { sessions := [sampleSession], knownServices := [] } "past" 5).length ≤ 5 ∧
    List.Sublist
      ((relevantSessions { sessions := [sampleSession], knownServices := [] } "past" 5).filter
        (fun s => overlapScore (extractKeywords "past") s == 1))
      (({ sessions := [sampleSession], knownServices := [] } : MemoryStore).sessions.filter
        (fun s => overlapScore (extractKeywords "past") s == 1)) :=
  ⟨(memory_context_selection _ _ _).1,
   (memory_context_selection _ _ _).2.2.2.2.2.1 1 (by decide)⟩


/-- C10: an `evaluate` call with an empty hard-criteria list produces a
report whose hard-criteria line reads `0/0` and is marked `ALL PASSED`. -/
theorem evaluate_empty_hard_reports_all_passed (input : EvalInput)
    (h : input.hard_criteria = []) :
    evalReport input =
      evalReportHeader input.name ++ "Hard criteria: 0/0 ✅ ALL PASSED\n" ++
        evalReportRest input := by
  simp only [evalReport, h]
  rfl

/-- C10 witness at a concrete input with no hard criteria. -/
theorem evaluate_empty_hard_reports_all_passed_witness :
    evalReport
        { name := "X", url := none, hard_criteria := [], soft_criteria := none,
          verdict := Verdict.fail, rejection_reason := none, notes := none } =
      evalReportHeader "X" ++ "Hard criteria: 0/0 ✅ ALL PASSED\n" ++
        evalReportRest
          { name := "X", url := none, hard_criteria := [], soft_criteria := none,
            verdict := Verdict.fail, rejection_reason := none, notes := none } :=
  evaluate_empty_hard_reports_all_passed _ rfl

end ResearchAgent
